import Mathlib

/-!
Verification of the package-lifecycle subsystem of the DCOS CLI
(`src/cli/dcoscli/package/main.py`) against its natural-language
specification.  The Python module is shallowly embedded: each command
handler becomes a pure Lean function over an explicit environment that
stands for the external collaborators (package sources, the marathon
client, the subcommand store, schema and image validators), and the
observable behaviour of a run is a trace of effects together with an
outcome.
-/

namespace DcosCli
/-- An observable effect of a command run: a message published through the
emitter, a package-resolution request, an app-install request sent to the
scheduler, or a CLI-subcommand installation. -/
inductive Effect where
  | publish (msg : String)
  | resolve (name : String)
  | installApp (appId : Option String)
  | installSubcommand (name : String)
  deriving DecidableEq, Repr

/-- Whether an effect mutates one of the two install targets (scheduler
app or local CLI subcommand). -/
def Effect.isMutation : Effect → Bool
  | .installApp _ => true
  | .installSubcommand _ => true
  | _ => false

/-- The outcome of a command run: a normal return with an exit code, a
raised `DCOSException` carrying its message, or divergence (the
`_confirm` prompt loops forever when it never receives a decisive
answer). -/
inductive Outcome where
  | exit (code : Nat)
  | err (msg : String)
  | hang
  deriving DecidableEq, Repr

/-- Python renders `None` as the string `None` inside `str.format`; a
`Some` renders as the string itself. -/
def optStr : Option String → String
  | none => "None"
  | some s => s

/-- Python truthiness of `dict.get` on an optional string field: `None`
and the empty string are falsy. -/
def truthy : Option String → Bool
  | none => false
  | some s => !(s == "")

/-- Python `str.strip()`: drop whitespace from both ends. -/
def pyStrip (s : String) : String :=
  ⟨((s.data.dropWhile Char.isWhitespace).reverse.dropWhile
    Char.isWhitespace).reverse⟩

/-- Python `str.lower()`: lowercase every character. -/
def pyLower (s : String) : String :=
  ⟨s.data.map Char.toLower⟩

/-- The response-reading loop of `_confirm` (package/main.py lines
295-305): each line is stripped and lowercased; `yes`/`y` accepts,
`no`/`n` declines, anything else publishes an invalid-response message
and asks again.  When the supplied responses run out the Python loop
would keep prompting forever, modelled as `none`. -/
def confirmLoop : List String → List Effect × Option Bool
  | [] => ([], none)
  | r :: rest =>
    let resp := pyLower (pyStrip r)
    if resp == "yes" || resp == "y" then ([], some true)
    else if resp == "no" || resp == "n" then ([], some false)
    else
      let t := confirmLoop rest
      (Effect.publish ("'" ++ resp ++ "' is not a valid response.") :: t.1, t.2)

/-- `_confirm(prompt, yes)` (package/main.py lines 282-305): with the
`yes` override set it returns `True` without prompting, otherwise it
runs the response loop. -/
def confirm (yes : Bool) (responses : List String) : List Effect × Option Bool :=
  if yes then ([], some true) else confirmLoop responses

/-- The fields of a revision's `package.json` that `_install` reads. -/
structure PkgJson where
  preInstallNotes : Option String
  postInstallNotes : Option String
  deriving DecidableEq, Repr

/-- A resolved package as `_install` consumes it: the collaborator
surface of `dcos.package`'s package object (spec section 4.1), with
per-revision accessors. -/
structure Pkg where
  name : String
  latestRevision : Option String → Option String
  revisionsMap : List (String × String)
  packageJson : String → PkgJson
  hasMarathon : String → Bool
  hasCommand : String → Bool

/-- The external collaborators `_install` touches, each frozen to the
result it would produce during the run: the resolver's answer, the
options-file read, option-schema validation, marathon client creation,
and the two target installs; plus the subcommand paths reported after a
CLI install. -/
structure InstallEnv where
  pkg : Option Pkg
  userOptions : Except String Unit
  pkgOptions : Except String Unit
  marathonClient : Except String Unit
  installAppResult : Except String Unit
  installCmdResult : Except String Unit
  subcommandPaths : List String

/-- The not-found message `_install` raises when the package name is
unknown (package/main.py lines 337-341). -/
def pkgNotFoundInstallMsg (n : String) : String :=
  "Package [" ++ n ++ "] not found\nYou may need to run 'dcos package update' to update your repositories"

/-- The message raised when an explicitly requested version is absent
from the revision map (package/main.py lines 345-347, 223-225). -/
def versionUnavailableMsg (v n : String) : String :=
  "Version " ++ v ++ " of package [" ++ n ++ "] is not available"

/-- The message raised by `_install` when no revision is available and no
explicit version was requested (package/main.py lines 348-349). -/
def pkgNotAvailableMsg (n : String) : String :=
  "Package [" ++ n ++ "] not available"

/-- The not-found message `_describe` raises for an unknown package name
(package/main.py line 219). -/
def pkgNotFoundDescribeMsg (n : String) : String :=
  "Package [" ++ n ++ "] not found"

/-- `os.path.basename`: the part after the last slash. -/
def basename (p : String) : String :=
  (p.splitOn "/").getLastD p

/-- `str.replace('-', ' ', 1)` on the character list: only the first
hyphen becomes a space. -/
def replaceFirstAux : List Char → List Char
  | [] => []
  | c :: cs => if c = '-' then ' ' :: cs else c :: replaceFirstAux cs

/-- `str.replace('-', ' ', 1)`: replace the first hyphen of a string by a
space, leaving later hyphens alone (package/main.py line 394). -/
def replaceFirstHyphen (s : String) : String :=
  ⟨replaceFirstAux s.data⟩

/-- The target-installation phase of `_install` (package/main.py lines
362-407): validate the merged options, look the display version up in
the revision map, run the marathon step when requested and declared,
then the subcommand step when requested and declared, and finally
publish the post-install notes when the descriptor carries any. -/
def installTargets (env : InstallEnv) (pkg : Pkg) (rev : String)
    (packageName : String) (appId : Option String) (cli app : Bool) :
    List Effect × Outcome :=
  match env.pkgOptions with
  | .error e => ([], .err e)
  | .ok _ =>
    let displayVersion := optStr (pkg.revisionsMap.lookup rev)
    let appStep : List Effect × Option String :=
      if app && pkg.hasMarathon rev then
        let msg0 := "Installing Marathon app for package [" ++ pkg.name ++
          "] version [" ++ displayVersion ++ "]"
        let msg := match appId with
          | some i => msg0 ++ " with app id [" ++ i ++ "]"
          | none => msg0
        match env.marathonClient with
        | .error e => ([Effect.publish msg], some e)
        | .ok _ =>
          match env.installAppResult with
          | .error e => ([Effect.publish msg, Effect.installApp appId], some e)
          | .ok _ => ([Effect.publish msg, Effect.installApp appId], none)
      else ([], none)
    match appStep with
    | (tr, some e) => (tr, .err e)
    | (tr, none) =>
      let cliStep : List Effect × Option String :=
        if cli && pkg.hasCommand rev then
          let msg := "Installing CLI subcommand for package [" ++ pkg.name ++
            "] version [" ++ displayVersion ++ "]"
          match env.installCmdResult with
          | .error e =>
            ([Effect.publish msg, Effect.installSubcommand packageName], some e)
          | .ok _ =>
            let newCommands :=
              env.subcommandPaths.map (fun p => replaceFirstHyphen (basename p))
            let extra :=
              if newCommands.isEmpty then []
              else
                let plural := if newCommands.length > 1 then "s" else ""
                [Effect.publish ("New command" ++ plural ++ " available: " ++
                  String.intercalate ", " newCommands)]
            (Effect.publish msg :: Effect.installSubcommand packageName :: extra,
              none)
        else ([], none)
      match cliStep with
      | (tr2, some e) => (tr ++ tr2, .err e)
      | (tr2, none) =>
        let post :=
          if truthy (pkg.packageJson rev).postInstallNotes then
            [Effect.publish ((pkg.packageJson rev).postInstallNotes.getD "")]
          else []
        (tr ++ tr2 ++ post, .exit 0)

/-- `_install` (package/main.py lines 308-407): default both targets when
neither flag is given, resolve the package, pick the revision, read the
options file, show the pre-install notes and ask for confirmation, then
run the target-installation phase. -/
def installRun (env : InstallEnv) (packageName : String)
    (packageVersion : Option String) (optionsPath : Option String)
    (appId : Option String) (cliFlag appFlag yes : Bool)
    (responses : List String) : List Effect × Outcome :=
  let cli := if !cliFlag && !appFlag then true else cliFlag
  let app := if !cliFlag && !appFlag then true else appFlag
  match env.pkg with
  | none => ([], .err (pkgNotFoundInstallMsg packageName))
  | some pkg =>
    match pkg.latestRevision packageVersion with
    | none =>
      match packageVersion with
      | some v => ([], .err (versionUnavailableMsg v packageName))
      | none => ([], .err (pkgNotAvailableMsg packageName))
    | some rev =>
      match (if optionsPath.isSome then env.userOptions else .ok ()) with
      | .error e => ([], .err e)
      | .ok _ =>
        let pkgJson := pkg.packageJson rev
        if truthy pkgJson.preInstallNotes then
          let notes := pkgJson.preInstallNotes.getD ""
          let c := confirm yes responses
          match c.2 with
          | none => (Effect.publish notes :: c.1, .hang)
          | some false =>
            (Effect.publish notes :: c.1 ++ [Effect.publish "Exiting installation."],
              .exit 0)
          | some true =>
            let r := installTargets env pkg rev packageName appId cli app
            (Effect.publish notes :: c.1 ++ r.1, r.2)
        else
          installTargets env pkg rev packageName appId cli app

/-- Strip at most one trailing newline from a character list: the list
form of the Python idiom `if s and s[-1] == chr(10): s = s[:-1]`. -/
def stripNLAux : List Char → List Char
  | [] => []
  | [c] => if c = '\n' then [] else [c]
  | c :: cs => c :: stripNLAux cs

/-- Strip exactly one trailing newline from a string when one is present,
as `_describe` does before publishing an unrendered template
(package/main.py lines 246-247 and 254-255). -/
def stripTrailingNewline (s : String) : String :=
  ⟨stripNLAux s.data⟩

/-- A resolved package as `_describe` consumes it: per-revision template
and descriptor accessors of the external package object. -/
structure DPkg where
  name : String
  latestRevision : Option String → Option String
  revisionsMap : List (String × String)
  commandTemplate : String → String
  marathonTemplate : String → String
  commandJson : String → String
  marathonJson : String → String
  configJson : String → String
  packageJsonStr : String → String

/-- The external collaborators `_describe` touches, frozen to the results
they would produce during the run. -/
structure DescribeEnv where
  pkg : Option DPkg
  userOptions : Except String Unit
  pkgOptions : Except String Unit

/-- The error raised when `--package-versions` is combined with any other
describe option (package/main.py lines 211-215). -/
def packageVersionsAloneMsg : String :=
  "If --package-versions is provided, no other option can be provided"

/-- `_describe` (package/main.py lines 173-264): an options file forces
rendering; `--package-versions` must stand alone, checked before any
resolution; then the package is resolved, the revision picked, and the
requested outputs published.  Raw templates are published with one
trailing newline stripped; rendered ones verbatim as produced. -/
def describeRun (env : DescribeEnv) (packageName : String)
    (app cli : Bool) (optionsPath : Option String) (render0 : Bool)
    (packageVersions : Bool) (packageVersion : Option String) (config : Bool) :
    List Effect × Outcome :=
  let render := if optionsPath.isSome then true else render0
  if packageVersions &&
      (app || cli || optionsPath.isSome || render || packageVersion.isSome ||
        config) then
    ([], .err packageVersionsAloneMsg)
  else
    match env.pkg with
    | none => ([Effect.resolve packageName], .err (pkgNotFoundDescribeMsg packageName))
    | some pkg =>
      match pkg.latestRevision packageVersion with
      | none =>
        ([Effect.resolve packageName],
          .err (versionUnavailableMsg (optStr packageVersion) packageName))
      | some rev =>
        if packageVersions then
          ([Effect.resolve packageName,
            Effect.publish (String.intercalate "\n" (pkg.revisionsMap.map Prod.snd))],
            .exit 0)
        else if cli || app || config then
          match (if optionsPath.isSome then env.userOptions else .ok ()) with
          | .error e => ([Effect.resolve packageName], .err e)
          | .ok _ =>
            match env.pkgOptions with
            | .error e => ([Effect.resolve packageName], .err e)
            | .ok _ =>
              let cliTr :=
                if cli then
                  [Effect.publish (if render then pkg.commandJson rev
                    else stripTrailingNewline (pkg.commandTemplate rev))]
                else []
              let appTr :=
                if app then
                  [Effect.publish (if render then pkg.marathonJson rev
                    else stripTrailingNewline (pkg.marathonTemplate rev))]
                else []
              let cfgTr :=
                if config then [Effect.publish (pkg.configJson rev)] else []
              (Effect.resolve packageName :: (cliTr ++ appTr ++ cfgTr), .exit 0)
        else
          ([Effect.resolve packageName, Effect.publish (pkg.packageJsonStr rev)],
            .exit 0)

/-- An installed-package record as `_list` consumes it: the dictionary
produced by the collaborator, with `name` always present and `apps`
possibly missing (a record without the key models a dictionary on which
`pkg_info.get('apps')` returns `None`). -/
structure PkgInfo where
  name : String
  apps : Option (List String)
  deriving DecidableEq, Repr

/-- The result of evaluating a piece of Python that may raise an uncaught
`TypeError` (membership test on `None`). -/
inductive PyResult (α : Type) where
  | ok (a : α)
  | typeError
  deriving DecidableEq, Repr

/-- `_matches_package_name` (package/main.py lines 454-465): true when no
name filter is given or the record's name equals it. -/
def matchesPackageName (name : Option String) (info : PkgInfo) : Bool :=
  match name with
  | none => true
  | some n => info.name == n

/-- `_matches_app_id` (package/main.py lines 468-479): `app_id is None`
short-circuits to true; otherwise `app_id in pkg_info.get('apps')` is
evaluated, which raises a `TypeError` when the record has no `apps` key
(membership in `None`). -/
def matchesAppId (appId : Option String) (info : PkgInfo) : PyResult Bool :=
  match appId with
  | none => .ok true
  | some i =>
    match info.apps with
    | none => .typeError
    | some l => .ok (l.contains i)

/-- One record's pass through the filter of `_list` (package/main.py
lines 434-435): the name predicate runs first and short-circuits the
app-id predicate. -/
def listStep (packageName appId : Option String) (info : PkgInfo) :
    PyResult Bool :=
  if matchesPackageName packageName info then matchesAppId appId info
  else .ok false

/-- The record-filtering loop of `_list` (package/main.py lines 431-443):
keep the records matching both filters, narrowing each kept record's
`apps` to the requested id when one was given; a `TypeError` raised on
any record aborts the whole command. -/
def listFilter (packageName appId : Option String) :
    List PkgInfo → PyResult (List PkgInfo)
  | [] => .ok []
  | info :: rest =>
    match listStep packageName appId info with
    | .typeError => .typeError
    | .ok b =>
      match listFilter packageName appId rest with
      | .typeError => .typeError
      | .ok tail =>
        if b then
          let kept :=
            match appId with
            | some i => { info with apps := info.apps.map (·.filter (· == i)) }
            | none => info
          .ok (kept :: tail)
        else .ok tail

/-- A filesystem entry of the package source directory: a regular file
with its byte content, or a directory listing named children. -/
inductive FsEntry where
  | file (content : String)
  | dir (entries : List (String × FsEntry))

/-- Whether an entry is a directory (`os.path.isdir`). -/
def FsEntry.isDir : FsEntry → Bool
  | .dir _ => true
  | .file _ => false

/-- `zipfile.ZipFile.write(fullpath, arcname)`: a regular file is stored
under the archive name with its exact content; a directory produces a
directory entry (name with a trailing slash, empty content). -/
def zipWrite (arcname : String) : FsEntry → String × String
  | .file c => (arcname, c)
  | .dir _ => (arcname ++ "/", "")

/-- A filesystem-visible operation of `_bundle`: a message published
through the emitter, or the copy of the finished archive into the output
directory. -/
inductive BundleOp where
  | publish (msg : String)
  | copyToOutput (path : String)
  deriving DecidableEq, Repr

/-- The external collaborators of `_bundle`, frozen to the results they
produce: the JSON schema validator (violation list per special file),
the PNG validator, the `name` and `version` fields parsed out of
`package.json`, and the sha256 digest of the archive bytes (an abstract
deterministic function of the archive contents). -/
structure BundleEnv where
  validateJson : String → String → List String
  validatePng : String → Bool
  pkgName : String → String
  pkgVersion : String → String
  sha256 : List (String × String) → String

/-- Lexicographic code-point order on character lists: the order in which
Python's `sorted` ranks directory-entry names.  (Lean's own string order
is decided by `String.ltb`, defined by well-founded recursion on byte
iterators, which the kernel cannot evaluate; this equivalent structural
definition keeps the directory walk executable.) -/
def charLeb : List Char → List Char → Bool
  | [], _ => true
  | _ :: _, [] => false
  | a :: as, b :: bs =>
    if a.toNat < b.toNat then true
    else if b.toNat < a.toNat then false
    else charLeb as bs

/-- Lexicographic code-point order on strings. -/
def strLeb (a b : String) : Bool :=
  charLeb a.data b.data

/-- Sort a directory listing by entry name: `sorted(os.listdir(d))`
paired with each name's entry. -/
def sortEntries (d : List (String × FsEntry)) : List (String × FsEntry) :=
  List.insertionSort (fun a b => strLeb a.1 b.1 = true) d

/-- The extra-file error of the bundling walk, naming the offending path
(package/main.py lines 575-577, 669-671, 713-715). -/
def extraFileMsg (fullpath : String) : String :=
  "Error bundling package. Extra file in package directory [" ++ fullpath ++ "]"

/-- Failure of `util.validate_png`.  Modelled from the spec: the image
validator lives in the external `dcos.util` module (spec section 6 gives
only `isValidImage(path) -> bool`), so the exception text is abstracted
as a fixed message naming the path. -/
def pngErrorMsg (fullpath : String) : String :=
  "Error validating png file [" ++ fullpath ++ "]"

/-- `util.validate_png` applied to an entry: a directory can never be
read as a valid image. -/
def pngOk (env : BundleEnv) : FsEntry → Bool
  | .file c => env.validatePng c
  | .dir _ => false

/-- `_validate_json_file` (package/main.py lines 603-634) on a special
file's content: schema-check `command.json`, `config.json` and
`package.json`; a violation publishes an error naming the file and
raises the joined violation list (`util.list_to_err` is external and
modelled from the spec as the newline-joined violation list). -/
def validateJsonFile (env : BundleEnv) (fullpath filename content : String) :
    List BundleOp × Except String Unit :=
  if filename == "command.json" || filename == "config.json" ||
      filename == "package.json" then
    match env.validateJson filename content with
    | [] => ([], .ok ())
    | errs =>
      ([BundleOp.publish ("Error validating JSON file [" ++ fullpath ++ "]")],
        .error (String.intercalate "\n" errs))
  else
    ([], .error ("Error bundling package. Unknown file in package directory [" ++
      fullpath ++ "]"))

/-- `_bundle_screenshots` (package/main.py lines 718-735) over an
already-sorted listing: validate every entry as a PNG and store it under
`images/screenshots/`. -/
def screenshotsLoop (env : BundleEnv) (dirpath : String) :
    List (String × FsEntry) → Except String (List (String × String))
  | [] => .ok []
  | (name, e) :: rest =>
    if pngOk env e then
      match screenshotsLoop env dirpath rest with
      | .error m => .error m
      | .ok r => .ok (zipWrite ("images/screenshots/" ++ name) e :: r)
    else .error (pngErrorMsg (dirpath ++ "/" ++ name))

/-- `_bundle_uris` (package/main.py lines 674-687) over an already-sorted
listing: every entry is stored verbatim under `assets/uris/`. -/
def urisLoop : List (String × FsEntry) → List (String × String)
  | [] => []
  | (name, e) :: rest => zipWrite ("assets/uris/" ++ name) e :: urisLoop rest

/-- The `screenshots` branch of `_bundle_images`: bundle the screenshots
subdirectory, then splice its entries before the rest of the images
walk; an error from either side aborts (the screenshots error, raised
first in the source, takes precedence). -/
def imagesScreenshots (env : BundleEnv) (dirpath name : String)
    (sub : List (String × FsEntry))
    (restResult : Except String (List (String × String))) :
    Except String (List (String × String)) :=
  match screenshotsLoop env (dirpath ++ "/" ++ name) (sortEntries sub) with
  | .error m => .error m
  | .ok shots =>
    match restResult with
    | .error m => .error m
    | .ok r => .ok (shots ++ r)

/-- The icon branch of `_bundle_images`: PNG-validate the icon file and
store it ahead of the rest of the images walk. -/
def imagesIcon (env : BundleEnv) (dirpath name : String) (e : FsEntry)
    (restResult : Except String (List (String × String))) :
    Except String (List (String × String)) :=
  if pngOk env e then
    match restResult with
    | .error m => .error m
    | .ok r => .ok (zipWrite ("images/" ++ name) e :: r)
  else .error (pngErrorMsg (dirpath ++ "/" ++ name))

/-- `_bundle_images` (package/main.py lines 690-715) over an
already-sorted listing: the three icon files are PNG-validated and
stored; a `screenshots` directory is recursed into; anything else is a
fatal extra-file error naming the path. -/
def imagesLoop (env : BundleEnv) (dirpath : String) :
    List (String × FsEntry) → Except String (List (String × String))
  | [] => .ok []
  | (name, e) :: rest =>
    if name == "icon-small.png" || name == "icon-medium.png" ||
        name == "icon-large.png" then
      imagesIcon env dirpath name e (imagesLoop env dirpath rest)
    else if name == "screenshots" then
      match e with
      | .dir sub => imagesScreenshots env dirpath name sub (imagesLoop env dirpath rest)
      | .file _ => .error (extraFileMsg (dirpath ++ "/" ++ name))
    else .error (extraFileMsg (dirpath ++ "/" ++ name))

/-- `_bundle_assets` (package/main.py lines 653-671) over an
already-sorted listing: only a `uris` directory is recognized; anything
else is a fatal extra-file error naming the path. -/
def assetsLoop (dirpath : String) :
    List (String × FsEntry) → Except String (List (String × String))
  | [] => .ok []
  | (name, e) :: rest =>
    if name == "uris" then
      match e with
      | .dir sub =>
        match assetsLoop dirpath rest with
        | .error m => .error m
        | .ok r => .ok (urisLoop (sortEntries sub) ++ r)
      | .file _ => .error (extraFileMsg (dirpath ++ "/" ++ name))
    else .error (extraFileMsg (dirpath ++ "/" ++ name))

/-- The top-level walk of `_bundle` (package/main.py lines 560-577) over
an already-sorted listing: the mustache template is copied verbatim, the
three special JSON files are schema-checked then copied, `assets` and
`images` directories are recursed into, and anything else is a fatal
extra-file error naming the path.  A directory carrying one of the
special JSON names makes Python's `open` raise an uncaught
`IsADirectoryError`, modelled as an error too. -/
def topLoop (env : BundleEnv) (pkgDir : String) :
    List (String × FsEntry) → List BundleOp × Except String (List (String × String))
  | [] => ([], .ok [])
  | (name, e) :: rest =>
    if name == "marathon.json.mustache" then
      let t := topLoop env pkgDir rest
      (t.1, match t.2 with
        | .error m => .error m
        | .ok r => .ok (zipWrite name e :: r))
    else if name == "config.json" || name == "command.json" ||
        name == "package.json" then
      match e with
      | .file content =>
        let v := validateJsonFile env (pkgDir ++ "/" ++ name) name content
        match v.2 with
        | .error m => (v.1, .error m)
        | .ok _ =>
          let t := topLoop env pkgDir rest
          (v.1 ++ t.1, match t.2 with
            | .error m => .error m
            | .ok r => .ok ((name, content) :: r))
      | .dir _ =>
        ([], .error ("IsADirectoryError [" ++ pkgDir ++ "/" ++ name ++ "]"))
    else if name == "assets" then
      match e with
      | .dir sub =>
        match assetsLoop (pkgDir ++ "/" ++ name) (sortEntries sub) with
        | .error m => ([], .error m)
        | .ok entries =>
          let t := topLoop env pkgDir rest
          (t.1, match t.2 with
            | .error m => .error m
            | .ok r => .ok (entries ++ r))
      | .file _ => ([], .error (extraFileMsg (pkgDir ++ "/" ++ name)))
    else if name == "images" then
      match e with
      | .dir sub =>
        match imagesLoop env (pkgDir ++ "/" ++ name) (sortEntries sub) with
        | .error m => ([], .error m)
        | .ok entries =>
          let t := topLoop env pkgDir rest
          (t.1, match t.2 with
            | .error m => .error m
            | .ok r => .ok (entries ++ r))
      | .file _ => ([], .error (extraFileMsg (pkgDir ++ "/" ++ name)))
    else ([], .error (extraFileMsg (pkgDir ++ "/" ++ name)))

/-- The archive-building half of `_bundle` (package/main.py lines
544-577): require `package.json` to exist, parse and schema-check it,
then walk the sorted directory into the temporary zip.  Returns the
`package.json` content (whose `name` and `version` fields name the
output file) with the archive entries. -/
def bundlePre (env : BundleEnv) (pkgDirPath : String)
    (pkgDir : List (String × FsEntry)) :
    List BundleOp × Except String (String × List (String × String)) :=
  match pkgDir.lookup "package.json" with
  | none =>
    ([], .error ("The file package.json is required in the package directory [" ++
      pkgDirPath ++ "]"))
  | some (.dir _) =>
    ([], .error ("IsADirectoryError [" ++ pkgDirPath ++ "/package.json]"))
  | some (.file c) =>
    let v := validateJsonFile env (pkgDirPath ++ "/package.json") "package.json" c
    match v.2 with
    | .error m => (v.1, .error m)
    | .ok _ =>
      let t := topLoop env pkgDirPath (sortEntries pkgDir)
      (v.1 ++ t.1, match t.2 with
        | .error m => .error m
        | .ok archive => .ok (c, archive))

instance {ε α : Type} [DecidableEq ε] [DecidableEq α] : DecidableEq (Except ε α) :=
  fun a b =>
    match a, b with
    | .error e, .error f =>
      if h : e = f then .isTrue (by rw [h]) else .isFalse (by simp [h])
    | .ok x, .ok y =>
      if h : x = y then .isTrue (by rw [h]) else .isFalse (by simp [h])
    | .error _, .ok _ => .isFalse (by simp)
    | .ok _, .error _ => .isFalse (by simp)

/-- The result of a `_bundle` run: the operation trace, the outcome, and
the listing of the output directory afterwards. -/
structure BundleResult where
  ops : List BundleOp
  result : Except String String
  outFiles : List String
  deriving DecidableEq, Repr

/-- `_bundle` (package/main.py lines 530-600): build the archive in a
temporary file, name it `{name}-{version}-{sha256}.zip` in the output
directory, fail on an existing file of that name, otherwise copy the
archive into place and publish the created path.  `outFs` lists the
files already present in the output directory. -/
def bundleRun (env : BundleEnv) (pkgDirPath : String)
    (pkgDir : List (String × FsEntry)) (outputDir : String)
    (outFs : List String) : BundleResult :=
  match bundlePre env pkgDirPath pkgDir with
  | (tr, .error m) => ⟨tr, .error m, outFs⟩
  | (tr, .ok (c, archive)) =>
    let zipName := outputDir ++ "/" ++ env.pkgName c ++ "-" ++ env.pkgVersion c ++
      "-" ++ env.sha256 archive ++ ".zip"
    if outFs.contains zipName then
      ⟨tr, .error ("Output file [" ++ zipName ++ "] already exists"), outFs⟩
    else
      ⟨tr ++ [BundleOp.copyToOutput zipName,
          BundleOp.publish ("Created DCOS Universe package [" ++ zipName ++ "].")],
        .ok zipName, zipName :: outFs⟩

/-- A package whose revision map declares no revision at all: every
lookup, with or without an explicit version, comes back empty. -/
def pkgEmpty : Pkg :=
  { name := "chaos"
    latestRevision := fun _ => none
    revisionsMap := []
    packageJson := fun _ => { preInstallNotes := none, postInstallNotes := none }
    hasMarathon := fun _ => false
    hasCommand := fun _ => false }

/-- An install environment around `pkgEmpty` with every collaborator
succeeding. -/
def envEmpty : InstallEnv :=
  { pkg := some pkgEmpty
    userOptions := .ok ()
    pkgOptions := .ok ()
    marathonClient := .ok ()
    installAppResult := .ok ()
    installCmdResult := .ok ()
    subcommandPaths := [] }

/-- An install environment around a revision that declares pre-install
notes and both templates, with every collaborator succeeding. -/
def envBoth : InstallEnv :=
  { pkg := some
      { name := "chaos"
        latestRevision := fun _ => some "rev0"
        revisionsMap := [("rev0", "1.0")]
        packageJson := fun _ =>
          { preInstallNotes := some "PRE", postInstallNotes := some "POST" }
        hasMarathon := fun _ => true
        hasCommand := fun _ => true }
    userOptions := .ok ()
    pkgOptions := .ok ()
    marathonClient := .ok ()
    installAppResult := .ok ()
    installCmdResult := .ok ()
    subcommandPaths := ["/store/chaos-run"] }

/-- A revision declaring neither an app template nor a command template,
but carrying post-install notes. -/
def pkgNoTargets : Pkg :=
  { name := "chaos"
    latestRevision := fun _ => some "rev0"
    revisionsMap := [("rev0", "1.0")]
    packageJson := fun _ =>
      { preInstallNotes := none, postInstallNotes := some "POST" }
    hasMarathon := fun _ => false
    hasCommand := fun _ => false }

/-- An install environment around `pkgNoTargets` with every collaborator
succeeding. -/
def envNoTargets : InstallEnv :=
  { pkg := some pkgNoTargets
    userOptions := .ok ()
    pkgOptions := .ok ()
    marathonClient := .ok ()
    installAppResult := .ok ()
    installCmdResult := .ok ()
    subcommandPaths := [] }

/-- A revision declaring only a command template (no app template). -/
def pkgCliOnly : Pkg :=
  { name := "chaos"
    latestRevision := fun _ => some "rev0"
    revisionsMap := [("rev0", "1.0")]
    packageJson := fun _ =>
      { preInstallNotes := none, postInstallNotes := none }
    hasMarathon := fun _ => false
    hasCommand := fun _ => true }

/-- An install environment around `pkgCliOnly` with every collaborator
succeeding. -/
def envCliOnly : InstallEnv :=
  { pkg := some pkgCliOnly
    userOptions := .ok ()
    pkgOptions := .ok ()
    marathonClient := .ok ()
    installAppResult := .ok ()
    installCmdResult := .ok ()
    subcommandPaths := ["/store/chaos-run"] }

/-- A bundle environment whose validators accept everything, with fixed
parsed name/version and an abstract digest. -/
def benvOk : BundleEnv :=
  { validateJson := fun _ _ => []
    validatePng := fun _ => true
    pkgName := fun _ => "chaos"
    pkgVersion := fun _ => "1.0"
    sha256 := fun _ => "d00d" }

/-- The spec scenario for C2: a directory with only the three special
JSON files plus one unrecognized `foo.txt`. -/
def dirFoo : List (String × FsEntry) :=
  [("package.json", .file "PJ"), ("config.json", .file "CJ"),
   ("command.json", .file "MJ"), ("foo.txt", .file "x")]

/-- A well-formed two-entry package directory. -/
def dirOkA : List (String × FsEntry) :=
  [("package.json", .file "PJ"), ("marathon.json.mustache", .file "TPL")]

/-- The same directory listed in the opposite order. -/
def dirOkB : List (String × FsEntry) :=
  [("marathon.json.mustache", .file "TPL"), ("package.json", .file "PJ")]

/-- The fixed allow-list at the top of a package directory: the mustache
template, the three schema-checked JSON files, and the `assets` and
`images` directories. -/
def topAllowed (p : String × FsEntry) : Bool :=
  p.1 == "marathon.json.mustache" || p.1 == "config.json" ||
  p.1 == "command.json" || p.1 == "package.json" ||
  ((p.1 == "assets" || p.1 == "images") && p.2.isDir)

/-- The allow-list inside `assets`: only a `uris` directory. -/
def assetsAllowed (p : String × FsEntry) : Bool :=
  p.1 == "uris" && p.2.isDir

/-- The allow-list inside `images`: the three icon files and a
`screenshots` directory. -/
def imagesAllowed (p : String × FsEntry) : Bool :=
  p.1 == "icon-small.png" || p.1 == "icon-medium.png" ||
  p.1 == "icon-large.png" || (p.1 == "screenshots" && p.2.isDir)

/-- A describe-side package whose command template ends in one newline
and whose app template ends in none. -/
def dpkgRaw : DPkg :=
  { name := "chaos"
    latestRevision := fun _ => some "rev0"
    revisionsMap := [("rev0", "1.0")]
    commandTemplate := fun _ => "CMD\n"
    marathonTemplate := fun _ => "MAR"
    commandJson := fun _ => "CMDR"
    marathonJson := fun _ => "MARR"
    configJson := fun _ => "CFG"
    packageJsonStr := fun _ => "PKG" }

/-- A describe environment around `dpkgRaw` with succeeding
collaborators. -/
def denvRaw : DescribeEnv :=
  { pkg := some dpkgRaw
    userOptions := .ok ()
    pkgOptions := .ok () }

theorem strDataAppend (a b : String) : (a ++ b).data = a.data ++ b.data := by
  cases a
  cases b
  rfl

theorem stringNeOfHead {a b : String} {c d : Char}
    (ha : a.data.head? = some c) (hb : b.data.head? = some d) (hcd : c ≠ d) :
    a ≠ b := by
  intro h
  subst h
  rw [ha] at hb
  exact hcd (Option.some.inj hb)

theorem versionUnavailableMsg_head (v n : String) :
    (versionUnavailableMsg v n).data.head? = some 'V' := by
  unfold versionUnavailableMsg
  simp only [strDataAppend]
  rfl

theorem pkgNotFoundInstallMsg_head (n : String) :
    (pkgNotFoundInstallMsg n).data.head? = some 'P' := by
  unfold pkgNotFoundInstallMsg
  simp only [strDataAppend]
  rfl

theorem pkgNotFoundDescribeMsg_head (n : String) :
    (pkgNotFoundDescribeMsg n).data.head? = some 'P' := by
  unfold pkgNotFoundDescribeMsg
  simp only [strDataAppend]
  rfl

/-- C10: for every invocation of describe, supplying `--package-versions`
together with any of `--app`, `--cli`, `--options`, `--render`,
`--package-version`, or `--config` raises an error before any package
resolution is attempted (the trace is empty, so no resolve effect was
emitted); `--package-versions` is only valid alone. -/
theorem c10_package_versions_alone (env : DescribeEnv) (pn : String)
    (app cli : Bool) (op : Option String) (render : Bool) (pv : Option String)
    (config : Bool)
    (h : app = true ∨ cli = true ∨ op ≠ none ∨ render = true ∨ pv ≠ none ∨
      config = true) :
    describeRun env pn app cli op render true pv config =
      ([], .err packageVersionsAloneMsg) := by
  unfold describeRun
  have hguard : (app || cli || op.isSome ||
      (if op.isSome then true else render) || pv.isSome || config) = true := by
    rcases h with h | h | h | h | h | h
    · simp [h]
    · simp [h]
    · simp [Option.isSome_iff_ne_none.mpr h]
    · rcases hop : op.isSome <;> simp [hop, h]
    · simp [Option.isSome_iff_ne_none.mpr h]
    · simp [h]
  simp only [Bool.true_and, hguard]
  rfl

theorem c10_witness :
    (true = true ∨ false = true ∨ (none : Option String) ≠ none ∨
      false = true ∨ (none : Option String) ≠ none ∨ false = true) ∧
    describeRun ⟨none, .ok (), .ok ()⟩ "p" true false none false true none false =
      ([], .err packageVersionsAloneMsg) :=
  ⟨Or.inl rfl,
    c10_package_versions_alone ⟨none, .ok (), .ok ()⟩ "p" true false none false
      none false (Or.inl rfl)⟩

/-- C9: the app-id filter used by package list is total only on records
carrying an `apps` key: on a record lacking it, a non-`None` app id makes
`app_id in pkg_info.get('apps')` evaluate membership in `None` and raise
a `TypeError` instead of returning `False`, so a `package list
--app-id=ID` run that reaches such a record fails; with the key present
the filter returns an ordinary boolean. -/
theorem c9_missing_apps_typeerror (i : String) (pn : Option String)
    (info : PkgInfo) (rest : List PkgInfo)
    (hmiss : info.apps = none)
    (hname : matchesPackageName pn info = true) :
    matchesAppId (some i) info = .typeError ∧
    (∀ l j inf2, inf2.apps = some l → matchesAppId (some j) inf2 = .ok (l.contains j)) ∧
    listFilter pn (some i) (info :: rest) = .typeError := by
  refine ⟨?_, ?_, ?_⟩
  · simp [matchesAppId, hmiss]
  · intro l j inf2 h
    simp [matchesAppId, h]
  · simp [listFilter, listStep, hname, matchesAppId, hmiss]

theorem c9_witness :
    (⟨"chaos", none⟩ : PkgInfo).apps = none ∧
    matchesPackageName none ⟨"chaos", none⟩ = true ∧
    matchesAppId (some "id") ⟨"chaos", none⟩ = .typeError ∧
    listFilter none (some "id") [⟨"chaos", none⟩] = .typeError := by
  refine ⟨rfl, rfl, ?_, ?_⟩
  · exact (c9_missing_apps_typeerror "id" none ⟨"chaos", none⟩ [] rfl rfl).1
  · exact (c9_missing_apps_typeerror "id" none ⟨"chaos", none⟩ [] rfl rfl).2.2

/-- C5: for both install and describe, an explicitly supplied version
that is absent from the package's revision map is reported as a distinct
version-unavailable condition, and that message differs from the message
reported when the package name itself is unknown. -/
theorem c5_version_unavailable_distinct :
    (∀ (env : InstallEnv) pn v op aid (c a y : Bool) rs, env.pkg = none →
      installRun env pn (some v) op aid c a y rs =
        ([], .err (pkgNotFoundInstallMsg pn))) ∧
    (∀ (env : InstallEnv) pkg pn v op aid (c a y : Bool) rs, env.pkg = some pkg →
      pkg.latestRevision (some v) = none →
      installRun env pn (some v) op aid c a y rs =
        ([], .err (versionUnavailableMsg v pn))) ∧
    (∀ (env : DescribeEnv) pn (app cli : Bool) op (render : Bool) v
      (config : Bool), env.pkg = none →
      describeRun env pn app cli op render false (some v) config =
        ([Effect.resolve pn], .err (pkgNotFoundDescribeMsg pn))) ∧
    (∀ (env : DescribeEnv) pkg pn (app cli : Bool) op (render : Bool) v
      (config : Bool), env.pkg = some pkg → pkg.latestRevision (some v) = none →
      describeRun env pn app cli op render false (some v) config =
        ([Effect.resolve pn], .err (versionUnavailableMsg v pn))) ∧
    (∀ v n, versionUnavailableMsg v n ≠ pkgNotFoundInstallMsg n ∧
      versionUnavailableMsg v n ≠ pkgNotFoundDescribeMsg n) := by
  refine ⟨?_, ?_, ?_, ?_, ?_⟩
  · intro env pn v op aid c a y rs h
    simp [installRun, h]
  · intro env pkg pn v op aid c a y rs h hr
    simp [installRun, h, hr]
  · intro env pn app cli op render v config h
    simp [describeRun, h]
  · intro env pkg pn app cli op render v config h hr
    simp [describeRun, h, hr, optStr]
  · intro v n
    constructor
    · exact stringNeOfHead (versionUnavailableMsg_head v n)
        (pkgNotFoundInstallMsg_head n) (by decide)
    · exact stringNeOfHead (versionUnavailableMsg_head v n)
        (pkgNotFoundDescribeMsg_head n) (by decide)

theorem c5_witness :
    envEmpty.pkg = some pkgEmpty ∧
    pkgEmpty.latestRevision (some "9.9") = none ∧
    installRun envEmpty "chaos" (some "9.9") none none false false true [] =
      ([], .err (versionUnavailableMsg "9.9" "chaos")) ∧
    versionUnavailableMsg "9.9" "chaos" ≠ pkgNotFoundInstallMsg "chaos" :=
  ⟨rfl, rfl,
    c5_version_unavailable_distinct.2.1 envEmpty pkgEmpty "chaos" "9.9" none none
      false false true [] rfl rfl,
    (c5_version_unavailable_distinct.2.2.2.2 "9.9" "chaos").1⟩

theorem confirmLoop_no_mutation (rs : List String) :
    ∀ e ∈ (confirmLoop rs).1, e.isMutation = false := by
  induction rs with
  | nil => intro e he; simp [confirmLoop] at he
  | cons r rest ih =>
    intro e he
    simp only [confirmLoop] at he
    split at he
    · simp at he
    · split at he
      · simp at he
      · rcases List.mem_cons.mp he with h | h
        · rw [h]; rfl
        · exact ih e h

/-- C6: when a package declares pre-install notes and the operator
declines the confirmation prompt without the `--yes` override, install
performs no mutation of either target (no scheduler call, no subcommand
install) and returns exit code 0. -/
theorem c6_decline_is_noop (env : InstallEnv) (pkg : Pkg) (rev pn : String)
    (pv op aid : Option String) (cf af : Bool) (rs : List String)
    (hp : env.pkg = some pkg)
    (hr : pkg.latestRevision pv = some rev)
    (hu : (if op.isSome then env.userOptions else Except.ok ()) = .ok ())
    (hn : truthy (pkg.packageJson rev).preInstallNotes = true)
    (hc : (confirmLoop rs).2 = some false) :
    (installRun env pn pv op aid cf af false rs).2 = .exit 0 ∧
    ∀ e ∈ (installRun env pn pv op aid cf af false rs).1, e.isMutation = false := by
  have hrun : installRun env pn pv op aid cf af false rs =
      (Effect.publish ((pkg.packageJson rev).preInstallNotes.getD "") ::
        ((confirmLoop rs).1 ++ [Effect.publish "Exiting installation."]),
        .exit 0) := by
    simp only [installRun, hp, hr, hu, hn, confirm, Bool.false_eq_true, if_false,
      if_true, hc]
    rfl
  rw [hrun]
  refine ⟨rfl, ?_⟩
  intro e he
  rcases List.mem_cons.mp he with h | h
  · rw [h]; rfl
  · rcases List.mem_append.mp h with h2 | h2
    · exact confirmLoop_no_mutation rs e h2
    · simp at h2
      rw [h2]
      rfl

theorem c6_witness :
    (installRun envBoth "chaos" none none none false false false ["no"]).2 =
      .exit 0 ∧
    ∀ e ∈ (installRun envBoth "chaos" none none none false false false
      ["no"]).1, e.isMutation = false := by
  have h := c6_decline_is_noop envBoth
    (Pkg.mk "chaos" (fun _ => some "rev0") [("rev0", "1.0")]
      (fun _ => { preInstallNotes := some "PRE", postInstallNotes := some "POST" })
      (fun _ => true) (fun _ => true))
    "rev0" "chaos" none none none false false ["no"] rfl rfl rfl rfl rfl
  exact h

theorem installTargets_no_app (env : InstallEnv) (pkg : Pkg) (rev pn : String)
    (aid : Option String) (cli app : Bool) (hm : pkg.hasMarathon rev = false)
    (a2 : Option String) :
    Effect.installApp a2 ∉ (installTargets env pkg rev pn aid cli app).1 := by
  unfold installTargets
  rcases env.pkgOptions with e | u
  · simp
  · simp only [hm, Bool.and_false, Bool.false_eq_true, if_false]
    by_cases hc : (cli && pkg.hasCommand rev) = true
    · simp only [hc, if_true]
      rcases env.installCmdResult with e2 | u2
      · simp
      · simp [List.mem_append]
    · simp only [hc, if_false]
      simp

theorem installTargets_no_cmd (env : InstallEnv) (pkg : Pkg) (rev pn : String)
    (aid : Option String) (cli app : Bool) (hm : pkg.hasCommand rev = false)
    (n2 : String) :
    Effect.installSubcommand n2 ∉ (installTargets env pkg rev pn aid cli app).1 := by
  unfold installTargets
  rcases env.pkgOptions with e | u
  · simp
  · simp only [hm, Bool.and_false, Bool.false_eq_true, if_false]
    by_cases ha : (app && pkg.hasMarathon rev) = true
    · simp only [ha, if_true]
      rcases env.marathonClient with e2 | u2
      · simp
      · rcases env.installAppResult with e3 | u3
        · simp
        · simp
    · simp only [ha, if_false]
      simp

theorem confirm_no_mutation (y : Bool) (rs : List String) :
    ∀ e ∈ (confirm y rs).1, e.isMutation = false := by
  unfold confirm
  split
  · simp
  · exact confirmLoop_no_mutation rs

theorem installRun_trace_sub (env : InstallEnv) (pkg : Pkg) (rev pn : String)
    (pv op aid : Option String) (cf af y : Bool) (rs : List String)
    (hp : env.pkg = some pkg) (hr : pkg.latestRevision pv = some rev) :
    ∀ e ∈ (installRun env pn pv op aid cf af y rs).1,
      e.isMutation = false ∨
      e ∈ (installTargets env pkg rev pn aid (if !cf && !af then true else cf)
        (if !cf && !af then true else af)).1 := by
  intro e he
  unfold installRun at he
  simp only [hp, hr] at he
  rcases hu : (if op.isSome then env.userOptions else Except.ok ()) with e2 | u
  · rw [hu] at he
    simp at he
  · rw [hu] at he
    by_cases hpre : truthy (pkg.packageJson rev).preInstallNotes = true
    · simp only [hpre, if_true] at he
      rcases hc : (confirm y rs).2 with _ | b
      · simp only [hc] at he
        rcases List.mem_cons.mp he with h | h
        · left; rw [h]; rfl
        · left; exact confirm_no_mutation y rs e h
      · cases b
        · simp only [hc] at he
          rcases List.mem_cons.mp he with h | h
          · left; rw [h]; rfl
          · rcases List.mem_append.mp h with h2 | h2
            · left; exact confirm_no_mutation y rs e h2
            · left
              simp at h2
              rw [h2]
              rfl
        · simp only [hc] at he
          rcases List.mem_cons.mp he with h | h
          · left; rw [h]; rfl
          · rcases List.mem_append.mp h with h2 | h2
            · left; exact confirm_no_mutation y rs e h2
            · right; exact h2
    · simp only [hpre, Bool.false_eq_true, if_false] at he
      right
      exact he

theorem installRun_no_app (env : InstallEnv) (pkg : Pkg) (rev pn : String)
    (pv op aid : Option String) (cf af y : Bool) (rs : List String)
    (hp : env.pkg = some pkg) (hr : pkg.latestRevision pv = some rev)
    (hm : pkg.hasMarathon rev = false) (a2 : Option String) :
    Effect.installApp a2 ∉ (installRun env pn pv op aid cf af y rs).1 := by
  intro hmem
  rcases installRun_trace_sub env pkg rev pn pv op aid cf af y rs hp hr
    (Effect.installApp a2) hmem with h | h
  · exact absurd h (by simp [Effect.isMutation])
  · exact installTargets_no_app env pkg rev pn aid _ _ hm a2 h

theorem installRun_no_cmd (env : InstallEnv) (pkg : Pkg) (rev pn : String)
    (pv op aid : Option String) (cf af y : Bool) (rs : List String)
    (hp : env.pkg = some pkg) (hr : pkg.latestRevision pv = some rev)
    (hm : pkg.hasCommand rev = false) (n2 : String) :
    Effect.installSubcommand n2 ∉ (installRun env pn pv op aid cf af y rs).1 := by
  intro hmem
  rcases installRun_trace_sub env pkg rev pn pv op aid cf af y rs hp hr
    (Effect.installSubcommand n2) hmem with h | h
  · exact absurd h (by simp [Effect.isMutation])
  · exact installTargets_no_cmd env pkg rev pn aid _ _ hm n2 h

theorem installTargets_cli_success (env : InstallEnv) (pkg : Pkg)
    (rev pn : String) (aid : Option String) (app : Bool)
    (hm : pkg.hasMarathon rev = false) (hc : pkg.hasCommand rev = true)
    (hopt : env.pkgOptions = .ok ()) (hcmd : env.installCmdResult = .ok ()) :
    (installTargets env pkg rev pn aid true app).2 = .exit 0 ∧
    Effect.installSubcommand pn ∈ (installTargets env pkg rev pn aid true app).1 := by
  unfold installTargets
  rw [hopt]
  simp only [hm, Bool.and_false, Bool.false_eq_true, if_false, hc, Bool.and_true,
    if_true, hcmd]
  simp [List.mem_append]

theorem installRun_no_pre_eq (env : InstallEnv) (pkg : Pkg) (rev pn : String)
    (pv op aid : Option String) (y : Bool) (rs : List String)
    (hp : env.pkg = some pkg) (hr : pkg.latestRevision pv = some rev)
    (hu : (if op.isSome then env.userOptions else Except.ok ()) = .ok ())
    (hpre : truthy (pkg.packageJson rev).preInstallNotes = false) :
    installRun env pn pv op aid true true y rs =
      installTargets env pkg rev pn aid true true := by
  simp only [installRun, hp, hr, hu, hpre, Bool.false_eq_true, if_false,
    Bool.not_true, Bool.and_self]

/-- C7: a requested install target whose template the revision does not
declare is silently skipped rather than treated as an error: no scheduler
install effect ever appears without a declared marathon definition and no
subcommand install without a declared command definition; and an install
with both targets requested on a revision declaring only a command
template installs the CLI target, skips the app target and exits 0. -/
theorem c7_missing_template_skipped (env : InstallEnv) (pkg : Pkg)
    (rev pn : String) (pv op aid : Option String) (cf af y : Bool)
    (rs : List String)
    (hp : env.pkg = some pkg) (hr : pkg.latestRevision pv = some rev) :
    (pkg.hasMarathon rev = false →
      ∀ a2, Effect.installApp a2 ∉ (installRun env pn pv op aid cf af y rs).1) ∧
    (pkg.hasCommand rev = false →
      ∀ n2, Effect.installSubcommand n2 ∉
        (installRun env pn pv op aid cf af y rs).1) ∧
    (pkg.hasMarathon rev = false → pkg.hasCommand rev = true →
      (if op.isSome then env.userOptions else Except.ok ()) = .ok () →
      truthy (pkg.packageJson rev).preInstallNotes = false →
      env.pkgOptions = .ok () → env.installCmdResult = .ok () →
      (installRun env pn pv op aid true true y rs).2 = .exit 0 ∧
      Effect.installSubcommand pn ∈
        (installRun env pn pv op aid true true y rs).1 ∧
      ∀ a2, Effect.installApp a2 ∉
        (installRun env pn pv op aid true true y rs).1) := by
  refine ⟨fun hm a2 => installRun_no_app env pkg rev pn pv op aid cf af y rs
      hp hr hm a2,
    fun hc n2 => installRun_no_cmd env pkg rev pn pv op aid cf af y rs
      hp hr hc n2,
    fun hm hc hu hpre hopt hcmd => ?_⟩
  rw [installRun_no_pre_eq env pkg rev pn pv op aid y rs hp hr hu hpre]
  rcases installTargets_cli_success env pkg rev pn aid true hm hc hopt hcmd
    with ⟨h1, h2⟩
  exact ⟨h1, h2,
    fun a2 => installTargets_no_app env pkg rev pn aid true true hm a2⟩

theorem installTargets_post_notes (env : InstallEnv) (pkg : Pkg)
    (rev pn : String) (aid : Option String) (cli app : Bool)
    (h0 : (installTargets env pkg rev pn aid cli app).2 = .exit 0)
    (hn : truthy (pkg.packageJson rev).postInstallNotes = true) :
    Effect.publish ((pkg.packageJson rev).postInstallNotes.getD "") ∈
      (installTargets env pkg rev pn aid cli app).1 := by
  unfold installTargets at h0 ⊢
  rcases hopt : env.pkgOptions with e | u
  · simp only [hopt] at h0
    simp at h0
  · simp only [hopt] at h0 ⊢
    by_cases ha : (app && pkg.hasMarathon rev) = true
    · rw [if_pos ha] at h0 ⊢
      rcases hmc : env.marathonClient with e2 | u2
      · simp only [hmc] at h0
        simp at h0
      · simp only [hmc] at h0 ⊢
        rcases hia : env.installAppResult with e3 | u3
        · simp only [hia] at h0
          simp at h0
        · simp only [hia] at h0 ⊢
          by_cases hcb : (cli && pkg.hasCommand rev) = true
          · rw [if_pos hcb] at h0 ⊢
            rcases hic : env.installCmdResult with e4 | u4
            · simp only [hic] at h0
              simp at h0
            · simp only [hic] at h0 ⊢
              simp [hn, List.mem_append]
          · rw [if_neg hcb] at h0 ⊢
            simp [hn, List.mem_append]
    · rw [if_neg ha] at h0 ⊢
      by_cases hcb : (cli && pkg.hasCommand rev) = true
      · rw [if_pos hcb] at h0 ⊢
        rcases hic : env.installCmdResult with e4 | u4
        · simp only [hic] at h0
          simp at h0
        · simp only [hic] at h0 ⊢
          simp [hn, List.mem_append]
      · rw [if_neg hcb] at h0 ⊢
        simp [hn, List.mem_append]

/-- C1 counterexample: on a revision that declares neither template, both
targets are skipped, yet the post-install notes are still published and
the run exits 0 with no install effect in the trace — refuting the claim
that the notes appear only after at least one target was installed. -/
theorem c1_counterexample :
    installRun envNoTargets "chaos" none none none false false true [] =
      ([Effect.publish "POST"], .exit 0) ∧
    pkgNoTargets.hasMarathon "rev0" = false ∧
    pkgNoTargets.hasCommand "rev0" = false ∧
    envNoTargets.pkg = some pkgNoTargets ∧
    (pkgNoTargets.packageJson "rev0").postInstallNotes = some "POST" := by
  refine ⟨?_, rfl, rfl, rfl, rfl⟩
  decide

/-- C1 (amended): the post-install notes are published whenever the
target-installation phase finishes with exit code 0 — regardless of
whether any target was actually installed (in particular when both were
skipped because the revision declares neither template); and when no
pre-install prompt intervenes this is the trace of the whole install
run. -/
theorem c1_post_notes_on_completion (env : InstallEnv) (pkg : Pkg)
    (rev pn : String) (pv op aid : Option String) (cli app y : Bool)
    (rs : List String)
    (hp : env.pkg = some pkg) (hr : pkg.latestRevision pv = some rev)
    (hu : (if op.isSome then env.userOptions else Except.ok ()) = .ok ())
    (hpre : truthy (pkg.packageJson rev).preInstallNotes = false)
    (hn : truthy (pkg.packageJson rev).postInstallNotes = true)
    (h0 : (installTargets env pkg rev pn aid cli app).2 = .exit 0) :
    Effect.publish ((pkg.packageJson rev).postInstallNotes.getD "") ∈
      (installTargets env pkg rev pn aid cli app).1 ∧
    (cli = true → app = true →
      Effect.publish ((pkg.packageJson rev).postInstallNotes.getD "") ∈
        (installRun env pn pv op aid true true y rs).1) := by
  refine ⟨installTargets_post_notes env pkg rev pn aid cli app h0 hn, ?_⟩
  intro hcli happ
  rw [installRun_no_pre_eq env pkg rev pn pv op aid y rs hp hr hu hpre]
  subst hcli
  subst happ
  exact installTargets_post_notes env pkg rev pn aid true true h0 hn

theorem c1_witness :
    (if (none : Option String).isSome then envNoTargets.userOptions
      else Except.ok ()) = .ok () ∧
    truthy ((pkgNoTargets.packageJson "rev0").preInstallNotes) = false ∧
    truthy ((pkgNoTargets.packageJson "rev0").postInstallNotes) = true ∧
    (installTargets envNoTargets pkgNoTargets "rev0" "chaos" none true true).2 =
      .exit 0 ∧
    Effect.publish ((pkgNoTargets.packageJson "rev0").postInstallNotes.getD "") ∈
      (installTargets envNoTargets pkgNoTargets "rev0" "chaos" none true true).1 := by
  refine ⟨rfl, rfl, rfl, by decide, ?_⟩
  exact (c1_post_notes_on_completion envNoTargets pkgNoTargets "rev0" "chaos"
    none none none true true true [] rfl rfl rfl rfl rfl (by decide)).1

theorem c7_witness :
    pkgCliOnly.hasMarathon "rev0" = false ∧
    pkgCliOnly.hasCommand "rev0" = true ∧
    (installRun envCliOnly "chaos" none none none true true false []).2 =
      .exit 0 ∧
    Effect.installSubcommand "chaos" ∈
      (installRun envCliOnly "chaos" none none none true true false []).1 ∧
    Effect.installApp none ∉
      (installRun envCliOnly "chaos" none none none true true false []).1 := by
  refine ⟨rfl, rfl, ?_⟩
  have h := (c7_missing_template_skipped envCliOnly pkgCliOnly "rev0" "chaos"
    none none none true true false [] rfl rfl).2.2 rfl rfl rfl rfl rfl rfl
  exact ⟨h.1, h.2.1, h.2.2 none⟩

theorem stripNLAux_append_newline (l : List Char) :
    stripNLAux (l ++ [Char.ofNat 10]) = l := by
  induction l with
  | nil => rfl
  | cons c cs ih =>
    cases cs with
    | nil => rfl
    | cons d ds =>
      show c :: stripNLAux ((d :: ds) ++ [Char.ofNat 10]) = c :: d :: ds
      rw [ih]

theorem stripNLAux_no_newline (l : List Char) (h : l.getLast? ≠ some (Char.ofNat 10)) :
    stripNLAux l = l := by
  induction l with
  | nil => rfl
  | cons c cs ih =>
    cases cs with
    | nil =>
      have hc : ¬ c = Char.ofNat 10 := by simpa using h
      simp [stripNLAux, hc]
    | cons d ds =>
      have h2 : (d :: ds).getLast? ≠ some (Char.ofNat 10) := by
        rw [List.getLast?_cons_cons] at h
        exact h
      show c :: stripNLAux (d :: ds) = c :: d :: ds
      rw [ih h2]

theorem describe_raw_templates (env : DescribeEnv) (pkg : DPkg) (pn : String)
    (pv : Option String) (rev : String)
    (hp : env.pkg = some pkg) (hr : pkg.latestRevision pv = some rev)
    (ho : env.pkgOptions = .ok ()) :
    describeRun env pn true true none false false pv false =
      ([Effect.resolve pn,
        Effect.publish (stripTrailingNewline (pkg.commandTemplate rev)),
        Effect.publish (stripTrailingNewline (pkg.marathonTemplate rev))],
        .exit 0) := by
  simp only [describeRun, hp, hr, ho]
  rfl

/-- C8: when describe displays an unrendered template exactly one
trailing newline is stripped when present and nothing otherwise, while
the bundler archives `marathon.json.mustache` verbatim, with its content
untouched. -/
theorem c8_template_newline_handling :
    (∀ t : String, stripTrailingNewline (t ++ "\n") = t) ∧
    (∀ s : String, s.data.getLast? ≠ some (Char.ofNat 10) →
      stripTrailingNewline s = s) ∧
    (∀ (env : DescribeEnv) (pkg : DPkg) (pn : String) (pv : Option String)
      (rev : String), env.pkg = some pkg → pkg.latestRevision pv = some rev →
      env.pkgOptions = .ok () →
      describeRun env pn true true none false false pv false =
        ([Effect.resolve pn,
          Effect.publish (stripTrailingNewline (pkg.commandTemplate rev)),
          Effect.publish (stripTrailingNewline (pkg.marathonTemplate rev))],
          .exit 0)) ∧
    (∀ (env : BundleEnv) (pd : String) (e : FsEntry)
      (rest : List (String × FsEntry)),
      topLoop env pd (("marathon.json.mustache", e) :: rest) =
        ((topLoop env pd rest).1,
          match (topLoop env pd rest).2 with
          | .error m => .error m
          | .ok r => .ok (zipWrite "marathon.json.mustache" e :: r))) ∧
    (∀ c, zipWrite "marathon.json.mustache" (FsEntry.file c) =
      ("marathon.json.mustache", c)) := by
  refine ⟨?_, ?_, ?_, ?_, fun c => rfl⟩
  · intro t
    cases t with
    | mk l =>
      have h : (String.mk l ++ "\n").data = l ++ [Char.ofNat 10] := by
        rw [strDataAppend]
      unfold stripTrailingNewline
      rw [h, stripNLAux_append_newline]
  · intro s h
    cases s with
    | mk l =>
      unfold stripTrailingNewline
      rw [stripNLAux_no_newline l h]
  · exact describe_raw_templates
  · intro env pd e rest
    rfl

theorem validateJsonFile_ops (env : BundleEnv) (fullpath filename content : String) :
    ∀ op ∈ (validateJsonFile env fullpath filename content).1,
      ∃ m, op = BundleOp.publish m := by
  unfold validateJsonFile
  split
  · split
    · simp
    · simp
  · simp

theorem topLoop_ops (env : BundleEnv) (pd : String) :
    ∀ (l : List (String × FsEntry)) (op : BundleOp),
      op ∈ (topLoop env pd l).1 → ∃ m, op = BundleOp.publish m := by
  intro l
  induction l with
  | nil =>
    intro op h
    simp [topLoop] at h
  | cons q rest ih =>
    rcases q with ⟨name, e⟩
    intro op h
    unfold topLoop at h
    by_cases h1 : (name == "marathon.json.mustache") = true
    · rw [if_pos h1] at h
      exact ih op h
    · rw [if_neg h1] at h
      by_cases h2 : (name == "config.json" || name == "command.json" ||
          name == "package.json") = true
      · rw [if_pos h2] at h
        cases e with
        | file content =>
          rcases hv : (validateJsonFile env (pd ++ "/" ++ name) name content).2
            with m | u
          · simp only [hv] at h
            exact validateJsonFile_ops env (pd ++ "/" ++ name) name content op h
          · simp only [hv] at h
            rcases List.mem_append.mp h with hm | hm
            · exact validateJsonFile_ops env (pd ++ "/" ++ name) name content op hm
            · exact ih op hm
        | dir sub => simp at h
      · rw [if_neg h2] at h
        by_cases h3 : (name == "assets") = true
        · rw [if_pos h3] at h
          cases e with
          | dir sub =>
            rcases ha : assetsLoop (pd ++ "/" ++ name) (sortEntries sub)
              with m | ent
            · simp only [ha] at h
              simp at h
            · simp only [ha] at h
              exact ih op h
          | file c => simp at h
        · rw [if_neg h3] at h
          by_cases h4 : (name == "images") = true
          · rw [if_pos h4] at h
            cases e with
            | dir sub =>
              rcases hi : imagesLoop env (pd ++ "/" ++ name) (sortEntries sub)
                with m | ent
              · simp only [hi] at h
                simp at h
              · simp only [hi] at h
                exact ih op h
            | file c => simp at h
          · rw [if_neg h4] at h
            simp at h

theorem bundlePre_ops (env : BundleEnv) (pd : String)
    (dir : List (String × FsEntry)) :
    ∀ op ∈ (bundlePre env pd dir).1, ∃ m, op = BundleOp.publish m := by
  intro op h
  unfold bundlePre at h
  rcases hl : dir.lookup "package.json" with _ | e
  · simp only [hl] at h
    simp at h
  · simp only [hl] at h
    cases e with
    | dir sub => simp at h
    | file c =>
      rcases hv : (validateJsonFile env (pd ++ "/package.json") "package.json" c).2
        with m | u
      · simp only [hv] at h
        exact validateJsonFile_ops env (pd ++ "/package.json") "package.json" c op h
      · simp only [hv] at h
        rcases List.mem_append.mp h with hm | hm
        · exact validateJsonFile_ops env (pd ++ "/package.json") "package.json" c op hm
        · exact topLoop_ops env pd (sortEntries dir) op hm

/-- C2: whenever bundling fails — missing `package.json`, a schema
violation, a disallowed entry, an invalid image, or a name conflict — no
file is created or left at the intended output path: the listing of the
output directory is unchanged and the operation trace contains no copy
into the output directory (the archive is built in a temporary file and
copied into place only after the whole build succeeds). -/
theorem c2_no_partial_output (env : BundleEnv) (pd : String)
    (dir : List (String × FsEntry)) (outDir : String) (outFs : List String)
    (e : String)
    (h : (bundleRun env pd dir outDir outFs).result = .error e) :
    (bundleRun env pd dir outDir outFs).outFiles = outFs ∧
    ∀ p, BundleOp.copyToOutput p ∉ (bundleRun env pd dir outDir outFs).ops := by
  unfold bundleRun at h ⊢
  rcases hb : bundlePre env pd dir with ⟨tr, res⟩
  have hops : ∀ op ∈ tr, ∃ m, op = BundleOp.publish m := by
    intro op hop
    apply bundlePre_ops env pd dir op
    rw [hb]
    exact hop
  simp only [hb] at h ⊢
  cases res with
  | error m =>
    refine ⟨by simp, fun p hp => ?_⟩
    rcases hops _ hp with ⟨m2, hm2⟩
    exact absurd hm2 (by simp)
  | ok ca =>
    rcases ca with ⟨c, archive⟩
    by_cases hc : outFs.contains (outDir ++ "/" ++ env.pkgName c ++ "-" ++
        env.pkgVersion c ++ "-" ++ env.sha256 archive ++ ".zip") = true
    · simp only [hc, if_true] at h ⊢
      refine ⟨by simp, fun p hp => ?_⟩
      rcases hops _ hp with ⟨m2, hm2⟩
      exact absurd hm2 (by simp)
    · simp only [hc, Bool.false_eq_true, if_false] at h
      simp at h

theorem c2_witness :
    (bundleRun benvOk "/src" dirFoo "/out" []).result =
      .error (extraFileMsg "/src/foo.txt") ∧
    (bundleRun benvOk "/src" dirFoo "/out" []).outFiles = [] ∧
    ∀ p, BundleOp.copyToOutput p ∉ (bundleRun benvOk "/src" dirFoo "/out" []).ops := by
  have h : (bundleRun benvOk "/src" dirFoo "/out" []).result =
      .error (extraFileMsg "/src/foo.txt") := by decide
  have h2 := c2_no_partial_output benvOk "/src" dirFoo "/out" [] _ h
  exact ⟨h, h2.1, h2.2⟩

theorem charLeb_cons (a b : Char) (as bs : List Char) :
    charLeb (a :: as) (b :: bs) = true ↔
      a.toNat < b.toNat ∨ (a.toNat = b.toNat ∧ charLeb as bs = true) := by
  simp only [charLeb]
  by_cases h1 : a.toNat < b.toNat
  · simp [h1]
  · by_cases h2 : b.toNat < a.toNat
    · rw [if_neg h1, if_pos h2]
      constructor
      · intro h
        exact absurd h (by simp)
      · intro h
        rcases h with h | ⟨he, _⟩
        · exact absurd h h1
        · omega
    · have he : a.toNat = b.toNat := by omega
      rw [if_neg h1, if_neg h2]
      simp [h1, he]

theorem charLeb_total : ∀ x y : List Char,
    charLeb x y = true ∨ charLeb y x = true := by
  intro x
  induction x with
  | nil => intro y; left; rfl
  | cons a as ih =>
    intro y
    cases y with
    | nil => right; rfl
    | cons b bs =>
      rw [charLeb_cons, charLeb_cons]
      by_cases h1 : a.toNat < b.toNat
      · left; left; exact h1
      · by_cases h2 : b.toNat < a.toNat
        · right; left; exact h2
        · have he : a.toNat = b.toNat := by omega
          rcases ih bs with h | h
          · left; right; exact ⟨he, h⟩
          · right; right; exact ⟨he.symm, h⟩

theorem charLeb_trans : ∀ x y z : List Char, charLeb x y = true →
    charLeb y z = true → charLeb x z = true := by
  intro x
  induction x with
  | nil => intro y z h1 h2; rfl
  | cons a as ih =>
    intro y z h1 h2
    cases y with
    | nil => simp [charLeb] at h1
    | cons b bs =>
      cases z with
      | nil => simp [charLeb] at h2
      | cons c cs =>
        rw [charLeb_cons] at h1 h2 ⊢
        rcases h1 with h1 | ⟨he1, hr1⟩
        · rcases h2 with h2 | ⟨he2, hr2⟩
          · left; omega
          · left; omega
        · rcases h2 with h2 | ⟨he2, hr2⟩
          · left; omega
          · right
            exact ⟨by omega, ih bs cs hr1 hr2⟩

theorem charLeb_antisymm : ∀ x y : List Char, charLeb x y = true →
    charLeb y x = true → x = y := by
  intro x
  induction x with
  | nil =>
    intro y h1 h2
    cases y with
    | nil => rfl
    | cons b bs => simp [charLeb] at h2
  | cons a as ih =>
    intro y h1 h2
    cases y with
    | nil => simp [charLeb] at h1
    | cons b bs =>
      rw [charLeb_cons] at h1 h2
      rcases h1 with h1 | ⟨he1, hr1⟩
      · rcases h2 with h2 | ⟨he2, hr2⟩
        · omega
        · omega
      · rcases h2 with h2 | ⟨he2, hr2⟩
        · omega
        · have hab : a = b := Char.ext (UInt32.toNat.inj he1)
          rw [hab, ih bs hr1 hr2]

theorem strLeb_antisymm {a b : String} (h1 : strLeb a b = true)
    (h2 : strLeb b a = true) : a = b := by
  cases a with
  | mk d1 =>
    cases b with
    | mk d2 =>
      exact congrArg String.mk (charLeb_antisymm d1 d2 h1 h2)

instance : IsTotal (String × FsEntry) (fun a b => strLeb a.1 b.1 = true) :=
  ⟨fun a b => charLeb_total a.1.data b.1.data⟩

instance : IsTrans (String × FsEntry) (fun a b => strLeb a.1 b.1 = true) :=
  ⟨fun _ _ _ h1 h2 => charLeb_trans _ _ _ h1 h2⟩

theorem sortEntries_perm_eq {d1 d2 : List (String × FsEntry)} (hp : d1.Perm d2)
    (hn : (d1.map Prod.fst).Nodup) : sortEntries d1 = sortEntries d2 := by
  have hperm : (sortEntries d1).Perm (sortEntries d2) :=
    (List.perm_insertionSort _ d1).trans
      (hp.trans (List.perm_insertionSort _ d2).symm)
  have hn1 : ((sortEntries d1).map Prod.fst).Nodup :=
    (((List.perm_insertionSort (fun a b : String × FsEntry =>
      strLeb a.1 b.1 = true) d1).map Prod.fst).nodup_iff).mpr hn
  have hn2 : ((sortEntries d2).map Prod.fst).Nodup :=
    ((hperm.map Prod.fst).nodup_iff).mp hn1
  have hs1 : List.Sorted (fun a b : String × FsEntry => strLeb a.1 b.1 = true)
      (sortEntries d1) := List.sorted_insertionSort _ d1
  have hs2 : List.Sorted (fun a b : String × FsEntry => strLeb a.1 b.1 = true)
      (sortEntries d2) := List.sorted_insertionSort _ d2
  have hne1 : List.Pairwise (fun a b : String × FsEntry => a.1 ≠ b.1)
      (sortEntries d1) := List.pairwise_map.mp hn1
  have hne2 : List.Pairwise (fun a b : String × FsEntry => a.1 ≠ b.1)
      (sortEntries d2) := List.pairwise_map.mp hn2
  have hlt1 : List.Pairwise (fun a b : String × FsEntry =>
      strLeb a.1 b.1 = true ∧ a.1 ≠ b.1) (sortEntries d1) := hs1.and hne1
  have hlt2 : List.Pairwise (fun a b : String × FsEntry =>
      strLeb a.1 b.1 = true ∧ a.1 ≠ b.1) (sortEntries d2) := hs2.and hne2
  haveI : IsAntisymm (String × FsEntry)
      (fun a b => strLeb a.1 b.1 = true ∧ a.1 ≠ b.1) :=
    ⟨fun a b h1 h2 => absurd (strLeb_antisymm h1.1 h2.1) h1.2⟩
  exact List.eq_of_perm_of_sorted hperm hlt1 hlt2

theorem lookup_perm_eq {d1 d2 : List (String × FsEntry)} (hp : d1.Perm d2)
    (k : String) :
    (d1.map Prod.fst).Nodup → d1.lookup k = d2.lookup k := by
  induction hp with
  | nil => intro _; rfl
  | cons a h ih =>
    intro hn
    rcases a with ⟨ka, va⟩
    simp only [List.lookup]
    cases hk : k == ka
    · simp only []
      exact ih ((List.nodup_cons.mp hn).2)
    · rfl
  | swap x y l =>
    intro hn
    rcases x with ⟨kx, vx⟩
    rcases y with ⟨ky, vy⟩
    have hxy : ky ≠ kx := by
      simp only [List.map, List.nodup_cons, List.mem_cons] at hn
      exact fun hh => hn.1 (Or.inl hh)
    simp only [List.lookup]
    cases hk1 : k == ky
    · cases hk2 : k == kx
      · simp only []
      · simp only []
    · cases hk2 : k == kx
      · simp only []
      · exact absurd ((beq_iff_eq.mp hk1).symm.trans
          (beq_iff_eq.mp hk2)) hxy
  | trans h1 h2 ih1 ih2 =>
    intro hn
    have hn2 := ((h1.map Prod.fst).nodup_iff).mp hn
    exact (ih1 hn).trans (ih2 hn2)

theorem bundlePre_perm_eq (env : BundleEnv) (pd : String)
    {d1 d2 : List (String × FsEntry)} (hp : d1.Perm d2)
    (hn : (d1.map Prod.fst).Nodup) :
    bundlePre env pd d1 = bundlePre env pd d2 := by
  unfold bundlePre
  rw [lookup_perm_eq hp "package.json" hn, sortEntries_perm_eq hp hn]

theorem bundleRun_perm_eq (env : BundleEnv) (pd outDir : String)
    (outFs : List String) {d1 d2 : List (String × FsEntry)} (hp : d1.Perm d2)
    (hn : (d1.map Prod.fst).Nodup) :
    bundleRun env pd d1 outDir outFs = bundleRun env pd d2 outDir outFs := by
  unfold bundleRun
  rw [bundlePre_perm_eq env pd hp hn]

/-- C3: bundling is deterministic — the walk sorts every directory level,
so the archive (hence digest and output name) does not depend on the
order in which the filesystem happens to list entries, at the top level
or inside `assets`, `assets/uris`, `images` or `images/screenshots`; and
because the second run then computes the same output name, which now
exists, it fails with a conflict instead of overwriting. -/
theorem c3_bundle_deterministic :
    (∀ (env : BundleEnv) (pd outDir : String) (outFs : List String)
      (d1 d2 : List (String × FsEntry)), d1.Perm d2 →
      (d1.map Prod.fst).Nodup →
      bundleRun env pd d1 outDir outFs = bundleRun env pd d2 outDir outFs) ∧
    (∀ (env : BundleEnv) (p : String) (s1 s2 : List (String × FsEntry)),
      s1.Perm s2 → (s1.map Prod.fst).Nodup →
      screenshotsLoop env p (sortEntries s1) =
        screenshotsLoop env p (sortEntries s2)) ∧
    (∀ (s1 s2 : List (String × FsEntry)), s1.Perm s2 →
      (s1.map Prod.fst).Nodup →
      urisLoop (sortEntries s1) = urisLoop (sortEntries s2)) ∧
    (∀ (env : BundleEnv) (p : String) (s1 s2 : List (String × FsEntry)),
      s1.Perm s2 → (s1.map Prod.fst).Nodup →
      imagesLoop env p (sortEntries s1) = imagesLoop env p (sortEntries s2)) ∧
    (∀ (p : String) (s1 s2 : List (String × FsEntry)), s1.Perm s2 →
      (s1.map Prod.fst).Nodup →
      assetsLoop p (sortEntries s1) = assetsLoop p (sortEntries s2)) ∧
    (∀ (env : BundleEnv) (pd outDir : String) (outFs : List String)
      (d : List (String × FsEntry)) (nm : String),
      (bundleRun env pd d outDir outFs).result = .ok nm →
      (bundleRun env pd d outDir
        ((bundleRun env pd d outDir outFs).outFiles)).result =
        .error ("Output file [" ++ nm ++ "] already exists")) := by
  refine ⟨fun env pd outDir outFs d1 d2 hp hn =>
      bundleRun_perm_eq env pd outDir outFs hp hn,
    fun env p s1 s2 hp hn => by rw [sortEntries_perm_eq hp hn],
    fun s1 s2 hp hn => by rw [sortEntries_perm_eq hp hn],
    fun env p s1 s2 hp hn => by rw [sortEntries_perm_eq hp hn],
    fun p s1 s2 hp hn => by rw [sortEntries_perm_eq hp hn],
    fun env pd outDir outFs d nm h => ?_⟩
  unfold bundleRun at h ⊢
  rcases hb : bundlePre env pd d with ⟨tr, res⟩
  simp only [hb] at h ⊢
  cases res with
  | error m => simp at h
  | ok ca =>
    rcases ca with ⟨c, archive⟩
    by_cases hc : outFs.contains (outDir ++ "/" ++ env.pkgName c ++ "-" ++
        env.pkgVersion c ++ "-" ++ env.sha256 archive ++ ".zip") = true
    · simp only [hc, if_true] at h
      simp at h
    · simp only [hc, Bool.false_eq_true, if_false] at h ⊢
      have hnm : outDir ++ "/" ++ env.pkgName c ++ "-" ++ env.pkgVersion c ++
          "-" ++ env.sha256 archive ++ ".zip" = nm := by
        simpa using h
      rw [hnm]
      simp

theorem c3_witness :
    dirOkA.Perm dirOkB ∧ (dirOkA.map Prod.fst).Nodup ∧
    bundleRun benvOk "/src" dirOkA "/out" [] =
      bundleRun benvOk "/src" dirOkB "/out" [] ∧
    (bundleRun benvOk "/src" dirOkA "/out" []).result =
      .ok "/out/chaos-1.0-d00d.zip" ∧
    (bundleRun benvOk "/src" dirOkA "/out"
      ((bundleRun benvOk "/src" dirOkA "/out" []).outFiles)).result =
      .error ("Output file [" ++ "/out/chaos-1.0-d00d.zip" ++
        "] already exists") := by
  have hperm : dirOkA.Perm dirOkB := List.Perm.swap _ _ _
  have hnodup : (dirOkA.map Prod.fst).Nodup := by decide
  have hok : (bundleRun benvOk "/src" dirOkA "/out" []).result =
      .ok "/out/chaos-1.0-d00d.zip" := by decide
  exact ⟨hperm, hnodup,
    c3_bundle_deterministic.1 benvOk "/src" "/out" [] dirOkA dirOkB hperm hnodup,
    hok,
    c3_bundle_deterministic.2.2.2.2.2 benvOk "/src" "/out" [] dirOkA
      "/out/chaos-1.0-d00d.zip" hok⟩

theorem assetsLoop_head_disallowed (dirpath name : String) (e : FsEntry)
    (rest : List (String × FsEntry)) (h : assetsAllowed (name, e) = false) :
    assetsLoop dirpath ((name, e) :: rest) =
      .error (extraFileMsg (dirpath ++ "/" ++ name)) := by
  simp only [assetsAllowed, Bool.and_eq_false_iff] at h
  unfold assetsLoop
  rcases h with h | h
  · simp only [h, Bool.false_eq_true, if_false]
  · cases e with
    | file c =>
      by_cases hu : (name == "uris") = true
      · simp only [hu, if_true]
      · simp only [hu, Bool.false_eq_true, if_false]
    | dir sub => simp [FsEntry.isDir] at h

theorem assetsLoop_ok_allowed (dirpath : String) :
    ∀ (l : List (String × FsEntry)) (r : List (String × String)),
      assetsLoop dirpath l = .ok r → ∀ p ∈ l, assetsAllowed p = true := by
  intro l
  induction l with
  | nil =>
    intro r h p hp
    simp at hp
  | cons q rest ih =>
    rcases q with ⟨name, e⟩
    intro r h p hp
    unfold assetsLoop at h
    by_cases hu : (name == "uris") = true
    · rw [if_pos hu] at h
      cases e with
      | dir sub =>
        rcases ha : assetsLoop dirpath rest with m | rr
        · rw [ha] at h
          simp at h
        · rw [ha] at h
          rcases List.mem_cons.mp hp with rfl | hmem
          · simp [assetsAllowed, hu, FsEntry.isDir]
          · exact ih rr ha p hmem
      | file c => simp at h
    · rw [if_neg hu] at h
      simp at h

theorem imagesLoop_head_disallowed (env : BundleEnv) (dirpath name : String)
    (e : FsEntry) (rest : List (String × FsEntry))
    (h : imagesAllowed (name, e) = false) :
    imagesLoop env dirpath ((name, e) :: rest) =
      .error (extraFileMsg (dirpath ++ "/" ++ name)) := by
  simp only [imagesAllowed, Bool.or_eq_false_iff, Bool.and_eq_false_iff] at h
  obtain ⟨⟨⟨h1, h2⟩, h3⟩, h4⟩ := h
  unfold imagesLoop
  simp only [h1, h2, h3, Bool.false_eq_true, if_false, Bool.or_false,
    Bool.false_or]
  rcases h4 with h4 | h4
  · simp only [h4, Bool.false_eq_true, if_false]
  · cases e with
    | file c =>
      by_cases hs : (name == "screenshots") = true
      · simp only [hs, if_true]
      · simp only [hs, Bool.false_eq_true, if_false]
    | dir sub => simp [FsEntry.isDir] at h4

theorem imagesLoop_ok_allowed (env : BundleEnv) (dirpath : String) :
    ∀ (l : List (String × FsEntry)) (r : List (String × String)),
      imagesLoop env dirpath l = .ok r → ∀ p ∈ l, imagesAllowed p = true := by
  intro l
  induction l with
  | nil =>
    intro r h p hp
    simp at hp
  | cons q rest ih =>
    rcases q with ⟨name, e⟩
    intro r h p hp
    unfold imagesLoop at h
    by_cases h1 : (name == "icon-small.png" || name == "icon-medium.png" ||
        name == "icon-large.png") = true
    · rw [if_pos h1] at h
      unfold imagesIcon at h
      by_cases hpng : pngOk env e = true
      · rw [if_pos hpng] at h
        rcases hr : imagesLoop env dirpath rest with m | rr
        · rw [hr] at h
          simp at h
        · rw [hr] at h
          rcases List.mem_cons.mp hp with rfl | hmem
          · simp only [imagesAllowed]
            simp only [Bool.or_eq_true] at h1 ⊢
            rcases h1 with h1 | h1
            · rcases h1 with h1 | h1
              · exact Or.inl (Or.inl (Or.inl h1))
              · exact Or.inl (Or.inl (Or.inr h1))
            · exact Or.inl (Or.inr h1)
          · exact ih rr hr p hmem
      · rw [if_neg hpng] at h
        simp at h
    · rw [if_neg h1] at h
      by_cases hs : (name == "screenshots") = true
      · rw [if_pos hs] at h
        cases e with
        | dir sub =>
          simp only [imagesScreenshots] at h
          rcases hsh : screenshotsLoop env (dirpath ++ "/" ++ name)
              (sortEntries sub) with m | shots
          · rw [hsh] at h
            simp at h
          · rw [hsh] at h
            rcases hr : imagesLoop env dirpath rest with m | rr
            · rw [hr] at h
              simp at h
            · rw [hr] at h
              rcases List.mem_cons.mp hp with rfl | hmem
              · simp [imagesAllowed, hs, FsEntry.isDir]
              · exact ih rr hr p hmem
        | file c => simp at h
      · rw [if_neg hs] at h
        simp at h

theorem topLoop_head_disallowed (env : BundleEnv) (pd name : String)
    (e : FsEntry) (rest : List (String × FsEntry))
    (h : topAllowed (name, e) = false) :
    (topLoop env pd ((name, e) :: rest)).2 =
      .error (extraFileMsg (pd ++ "/" ++ name)) := by
  simp only [topAllowed, Bool.or_eq_false_iff, Bool.and_eq_false_iff] at h
  obtain ⟨⟨⟨⟨h1, h2⟩, h3⟩, h4⟩, h5⟩ := h
  unfold topLoop
  simp only [h1, h2, h3, h4, Bool.false_eq_true, if_false, Bool.or_false,
    Bool.false_or]
  rcases h5 with ⟨h5a, h5b⟩ | h5
  · simp only [h5a, h5b, Bool.false_eq_true, if_false]
  · cases e with
    | file c =>
      by_cases ha : (name == "assets") = true
      · simp only [ha, if_true]
      · simp only [ha, Bool.false_eq_true, if_false]
        by_cases hi : (name == "images") = true
        · simp only [hi, if_true]
        · simp only [hi, Bool.false_eq_true, if_false]
    | dir sub => simp [FsEntry.isDir] at h5

theorem topLoop_tail_ok (env : BundleEnv) (pd name : String) (e : FsEntry)
    (rest : List (String × FsEntry)) (r : List (String × String))
    (h : (topLoop env pd ((name, e) :: rest)).2 = .ok r) :
    ∃ rr, (topLoop env pd rest).2 = .ok rr := by
  unfold topLoop at h
  by_cases h1 : (name == "marathon.json.mustache") = true
  · rw [if_pos h1] at h
    simp only [] at h
    rcases ht : (topLoop env pd rest).2 with m | rr
    · rw [ht] at h
      simp at h
    · exact ⟨rr, rfl⟩
  · rw [if_neg h1] at h
    by_cases h2 : (name == "config.json" || name == "command.json" ||
        name == "package.json") = true
    · rw [if_pos h2] at h
      cases e with
      | file content =>
        simp only [] at h
        rcases hv : (validateJsonFile env (pd ++ "/" ++ name) name content).2
          with m | u
        · rw [hv] at h
          simp at h
        · rw [hv] at h
          simp only [] at h
          rcases ht : (topLoop env pd rest).2 with m | rr
          · rw [ht] at h
            simp at h
          · exact ⟨rr, rfl⟩
      | dir sub => simp at h
    · rw [if_neg h2] at h
      by_cases h3 : (name == "assets") = true
      · rw [if_pos h3] at h
        cases e with
        | dir sub =>
          simp only [] at h
          rcases ha : assetsLoop (pd ++ "/" ++ name) (sortEntries sub)
            with m | ent
          · rw [ha] at h
            simp at h
          · rw [ha] at h
            simp only [] at h
            rcases ht : (topLoop env pd rest).2 with m | rr
            · rw [ht] at h
              simp at h
            · exact ⟨rr, rfl⟩
        | file c => simp at h
      · rw [if_neg h3] at h
        by_cases h4 : (name == "images") = true
        · rw [if_pos h4] at h
          cases e with
          | dir sub =>
            simp only [] at h
            rcases hi : imagesLoop env (pd ++ "/" ++ name) (sortEntries sub)
              with m | ent
            · rw [hi] at h
              simp at h
            · rw [hi] at h
              simp only [] at h
              rcases ht : (topLoop env pd rest).2 with m | rr
              · rw [ht] at h
                simp at h
              · exact ⟨rr, rfl⟩
          | file c => simp at h
        · rw [if_neg h4] at h
          simp at h

theorem topLoop_ok_allowed (env : BundleEnv) (pd : String) :
    ∀ (l : List (String × FsEntry)) (r : List (String × String)),
      (topLoop env pd l).2 = .ok r → ∀ p ∈ l, topAllowed p = true := by
  intro l
  induction l with
  | nil =>
    intro r h p hp
    simp at hp
  | cons q rest ih =>
    rcases q with ⟨name, e⟩
    intro r h p hp
    rcases List.mem_cons.mp hp with rfl | hmem
    · rcases hall : topAllowed (name, e) with _ | _
      · have hd := topLoop_head_disallowed env pd name e rest hall
        rw [h] at hd
        simp at hd
      · rfl
    · rcases topLoop_tail_ok env pd name e rest r h with ⟨rr, ht⟩
      exact ih rr ht p hmem

/-- C4: an entry at any level of the source directory (top level,
`assets`, `images`) that does not match the fixed allow-list makes the
walk raise a fatal error whose message names the offending path, and no
entry is ever silently skipped: a walk that returns successfully has
classified every entry of its directory as allowed. -/
theorem c4_allowlist_enforced :
    (∀ (env : BundleEnv) (pd name : String) (e : FsEntry)
      (rest : List (String × FsEntry)), topAllowed (name, e) = false →
      (topLoop env pd ((name, e) :: rest)).2 =
        .error (extraFileMsg (pd ++ "/" ++ name))) ∧
    (∀ (env : BundleEnv) (pd : String) (d : List (String × FsEntry))
      (r : List (String × String)),
      (topLoop env pd (sortEntries d)).2 = .ok r →
      ∀ p ∈ d, topAllowed p = true) ∧
    (∀ (dirpath name : String) (e : FsEntry)
      (rest : List (String × FsEntry)), assetsAllowed (name, e) = false →
      assetsLoop dirpath ((name, e) :: rest) =
        .error (extraFileMsg (dirpath ++ "/" ++ name))) ∧
    (∀ (dirpath : String) (d : List (String × FsEntry))
      (r : List (String × String)),
      assetsLoop dirpath (sortEntries d) = .ok r →
      ∀ p ∈ d, assetsAllowed p = true) ∧
    (∀ (env : BundleEnv) (dirpath name : String) (e : FsEntry)
      (rest : List (String × FsEntry)), imagesAllowed (name, e) = false →
      imagesLoop env dirpath ((name, e) :: rest) =
        .error (extraFileMsg (dirpath ++ "/" ++ name))) ∧
    (∀ (env : BundleEnv) (dirpath : String) (d : List (String × FsEntry))
      (r : List (String × String)),
      imagesLoop env dirpath (sortEntries d) = .ok r →
      ∀ p ∈ d, imagesAllowed p = true) := by
  refine ⟨topLoop_head_disallowed, ?_, assetsLoop_head_disallowed, ?_,
    imagesLoop_head_disallowed, ?_⟩
  · intro env pd d r h p hp
    exact topLoop_ok_allowed env pd (sortEntries d) r h p
      (((List.perm_insertionSort (fun a b : String × FsEntry =>
        strLeb a.1 b.1 = true) d).mem_iff).mpr hp)
  · intro dirpath d r h p hp
    exact assetsLoop_ok_allowed dirpath (sortEntries d) r h p
      (((List.perm_insertionSort (fun a b : String × FsEntry =>
        strLeb a.1 b.1 = true) d).mem_iff).mpr hp)
  · intro env dirpath d r h p hp
    exact imagesLoop_ok_allowed env dirpath (sortEntries d) r h p
      (((List.perm_insertionSort (fun a b : String × FsEntry =>
        strLeb a.1 b.1 = true) d).mem_iff).mpr hp)

theorem c4_witness :
    topAllowed ("foo.txt", FsEntry.file "x") = false ∧
    (topLoop benvOk "/src" [("foo.txt", FsEntry.file "x")]).2 =
      .error (extraFileMsg ("/src" ++ "/" ++ "foo.txt")) ∧
    imagesAllowed ("note.txt", FsEntry.file "y") = false ∧
    imagesLoop benvOk "/images" [("note.txt", FsEntry.file "y")] =
      .error (extraFileMsg ("/images" ++ "/" ++ "note.txt")) := by
  refine ⟨by decide, ?_, by decide, ?_⟩
  · exact c4_allowlist_enforced.1 benvOk "/src" "foo.txt" (FsEntry.file "x")
      [] (by decide)
  · exact c4_allowlist_enforced.2.2.2.2.1 benvOk "/images" "note.txt"
      (FsEntry.file "y") [] (by decide)

theorem c8_witness :
    "MAR".data.getLast? ≠ some (Char.ofNat 10) ∧
    stripTrailingNewline "MAR" = "MAR" ∧
    stripTrailingNewline ("CMD" ++ "\n") = "CMD" ∧
    describeRun denvRaw "chaos" true true none false false none false =
      ([Effect.resolve "chaos",
        Effect.publish (stripTrailingNewline (dpkgRaw.commandTemplate "rev0")),
        Effect.publish (stripTrailingNewline (dpkgRaw.marathonTemplate "rev0"))],
        .exit 0) := by
  refine ⟨by decide, ?_, ?_, ?_⟩
  · exact c8_template_newline_handling.2.1 "MAR" (by decide)
  · exact c8_template_newline_handling.1 "CMD"
  · exact c8_template_newline_handling.2.2.1 denvRaw dpkgRaw "chaos" none
      "rev0" rfl rfl rfl

end DcosCli
